import Mathlib

/-
  Verification of the note-queue / mixer core of the Boodler soundscape
  engine (the C sources: the noteq module, the sample loader, and the
  AudioQueue audio sink).

  Modelling conventions:
  - C long and int values are modelled as Int (the claims quantify over
    ranges where no overflow occurs);
  - C double values are modelled as Rat (the mixer's volume and pitch
    arithmetic is plain field arithmetic and comparisons);
  - Python object pointers (channels, callback objects) are modelled as
    Option Nat identities: none models a NULL pointer, pointer equality
    becomes equality of identities;
  - the singly-linked note queue becomes a List of notes, and the
    last_added hint pointer becomes the index of the designated node;
  - the Py_INCREF / callback side effects are recorded explicitly in the
    results of the operations that perform them.
-/

/- The stereo pan transform: (scalex, shiftx, scaley, shifty). -/
structure Stereo where
  scalex : ℚ
  shiftx : ℚ
  scaley : ℚ
  shifty : ℚ
deriving DecidableEq, Repr

/- sample_struct from the sample header: loop fields, frame count, and the
   decoded PCM data. -/
structure Sample where
  loaded : Bool
  error : Bool
  numframes : ℤ
  numchannels : ℤ
  hasloop : Bool
  loopstart : ℤ
  loopend : ℤ
  looplen : ℤ
  framerate : ℚ
  data : List ℤ
deriving DecidableEq, Repr

/- note_struct: one scheduled playback of a Sample. removefuncCallable
   models the result of PyCallable_Check on the removefunc object; nid is a
   model-level tag for the identity of the malloc'd note (distinct notes
   are distinct objects in C even when all their fields agree). -/
structure Note where
  sample : Sample
  pitch : ℚ
  volume : ℚ
  pan : Stereo
  starttime : ℤ
  repetitions : ℤ
  channel : Option Nat
  removefunc : Option Nat
  removefuncCallable : Bool
  framepos : ℤ
  framefrac : ℤ
  repsleft : ℤ
  nid : Nat
deriving DecidableEq, Repr

/- The mixer's global queue state: the queue list, the last_added hint
   (index of the hinted node, none for NULL), and current_time. -/
structure NoteQ where
  queue : List Note
  lastAdded : Option Nat
  currentTime : ℤ
deriving DecidableEq, Repr

/- The state after noteq_init on a fresh process: empty queue, NULL hint,
   current_time zero. -/
def noteq_init : NoteQ :=
  { queue := [], lastAdded := none, currentTime := 0 }

/- The scan loop of noteq_add: starting from some position, advance while
   the new note's starttime is strictly greater than the current node's,
   then splice the note in. Returns the new list segment and the offset at
   which the note was placed. -/
def noteq_scan (note : Note) : List Note → List Note × Nat
  | [] => ([note], 0)
  | x :: xs =>
    if note.starttime > x.starttime then
      (x :: (noteq_scan note xs).1, (noteq_scan note xs).2 + 1)
    else
      (note :: x :: xs, 0)

/- The hint test of noteq_add: last_added is usable when it is non-NULL and
   the new starttime is at least the hinted node's starttime; the scan then
   begins at last_added->next. -/
def noteq_hint (st : NoteQ) (starttime : ℤ) : Option Nat :=
  match st.lastAdded with
  | none => none
  | some i =>
    match st.queue[i]? with
    | none => none
    | some la => if starttime ≥ la.starttime then some i else none

/- noteq_add: insert a note into the queue, scanning from last_added->next
   when the hint applies and from the head otherwise; afterwards last_added
   designates the inserted note. -/
def noteq_add (note : Note) (st : NoteQ) : NoteQ :=
  match noteq_hint st note.starttime with
  | some i =>
    { queue := st.queue.take (i + 1) ++ (noteq_scan note (st.queue.drop (i + 1))).1
      lastAdded := some (i + 1 + (noteq_scan note (st.queue.drop (i + 1))).2)
      currentTime := st.currentTime }
  | none =>
    { queue := (noteq_scan note st.queue).1
      lastAdded := some (noteq_scan note st.queue).2
      currentTime := st.currentTime }

/- A C cast of a double value to long: truncation toward zero. -/
def ctrunc (q : ℚ) : ℤ := if 0 ≤ q then ⌊q⌋ else ⌈q⌉

/- The outcome of a note_create_reps call: the returned duration (0 on
   allocation failure), the queue state afterwards, whether Py_INCREF ran
   on the channel and on the removefunc, and the note that was allocated
   and queued (none when malloc failed). -/
structure CreateResult where
  retval : ℤ
  state : NoteQ
  increfChannel : Bool
  increfRemove : Bool
  created : Option Note
deriving DecidableEq, Repr

/- note_create_reps: allocate a note (allocOk models the malloc result; on
   failure return 0 at once, touching nothing), coerce reps to 1 when the
   sample has no loop or reps <= 1, compute the duration, fill in the note,
   INCREF the channel and removefunc when present, and noteq_add it. -/
def note_create_reps (allocOk : Bool) (samp : Sample) (pitch volume : ℚ)
    (pan : Stereo) (starttime : ℤ) (reps : ℤ) (channel : Option Nat)
    (removefunc : Option Nat) (removefuncCallable : Bool) (nid : Nat)
    (st : NoteQ) : CreateResult :=
  if allocOk = false then
    { retval := 0, state := st, increfChannel := false, increfRemove := false
      created := none }
  else
    let srcrate := samp.framerate * pitch
    let repsv : ℤ := if samp.hasloop = false ∨ reps ≤ 1 then 1 else reps
    let duration : ℤ :=
      if samp.hasloop = false ∨ reps ≤ 1 then
        ctrunc ((samp.numframes : ℚ) / srcrate)
      else
        ctrunc (((samp.numframes + samp.looplen * (reps - 1) : ℤ) : ℚ) / srcrate)
    let note : Note :=
      { sample := samp, pitch := pitch, volume := volume, pan := pan
        starttime := starttime, repetitions := repsv, channel := channel
        removefunc := removefunc, removefuncCallable := removefuncCallable
        framepos := 0, framefrac := 0, repsleft := repsv - 1, nid := nid }
    { retval := duration
      state := noteq_add note st
      increfChannel := channel.isSome
      increfRemove := removefunc.isSome
      created := some note }

/- note_create: a single pass, reps = 1. -/
def note_create (allocOk : Bool) (samp : Sample) (pitch volume : ℚ)
    (pan : Stereo) (starttime : ℤ) (channel : Option Nat)
    (removefunc : Option Nat) (removefuncCallable : Bool) (nid : Nat)
    (st : NoteQ) : CreateResult :=
  note_create_reps allocOk samp pitch volume pan starttime 1 channel
    removefunc removefuncCallable nid st

/- note_create_duration: derive the repetition count from a requested
   duration in output frames. The source multiplies duration by
   framerate*pitch in double arithmetic, casts the product back to long
   (truncation), and then computes reps with C truncating division. -/
def note_create_duration (allocOk : Bool) (samp : Sample) (pitch volume : ℚ)
    (pan : Stereo) (starttime : ℤ) (duration : ℤ) (channel : Option Nat)
    (removefunc : Option Nat) (removefuncCallable : Bool) (nid : Nat)
    (st : NoteQ) : CreateResult :=
  let reps : ℤ :=
    if samp.hasloop = false then 1
    else
      let looplen := samp.looplen
      let margins := samp.numframes - looplen
      let durationSrc := ctrunc ((duration : ℚ) * (samp.framerate * pitch))
      Int.tdiv (durationSrc - margins + (looplen - 1)) looplen
  note_create_reps allocOk samp pitch volume pan starttime reps channel
    removefunc removefuncCallable nid st

/- The callback invocation performed by note_destroy: the removefunc is
   called iff it is present and callable. Both the ordinary end-of-note
   reap path in noteq_generate and note_destroy_by_channel destroy notes
   through this same note_destroy. Returns the identities of the callbacks
   that fire. -/
def note_destroy_fired (note : Note) : List Nat :=
  match note.removefunc with
  | some f => if note.removefuncCallable then [f] else []
  | none => []

/- The willdelete test of note_destroy_by_channel: pointer equality of the
   channel (including the NULL = NULL case), else, when both are non-NULL,
   the PyMapping_HasKey(note->channel.ancestors, channel) test. anc c d
   models that membership test (false also covers a channel with no
   ancestors attribute). -/
def channel_matches (anc : Nat → Nat → Bool) (channel : Option Nat)
    (note : Note) : Bool :=
  if note.channel = channel then true
  else
    match note.channel, channel with
    | some nc, some c => anc nc c
    | _, _ => false

/- The walk of note_destroy_by_channel over the queue: keep non-matching
   notes, destroy matching ones (collecting the callbacks that
   note_destroy fires, in queue order). -/
def destroy_scan (anc : Nat → Nat → Bool) (channel : Option Nat) :
    List Note → List Note × List Nat
  | [] => ([], [])
  | n :: rest =>
    if channel_matches anc channel n then
      ((destroy_scan anc channel rest).1,
        note_destroy_fired n ++ (destroy_scan anc channel rest).2)
    else
      (n :: (destroy_scan anc channel rest).1, (destroy_scan anc channel rest).2)

/- note_destroy_by_channel: purge the subtree of a channel. Every removal
   goes through noteq_remove, which nulls the last_added hint; when nothing
   matches the hint is untouched. Returns the new state and the identities
   of the removefunc callbacks that fired. -/
def note_destroy_by_channel (anc : Nat → Nat → Bool) (channel : Option Nat)
    (st : NoteQ) : NoteQ × List Nat :=
  ({ queue := (destroy_scan anc channel st.queue).1
     lastAdded :=
       if st.queue.any (channel_matches anc channel) then none else st.lastAdded
     currentTime := st.currentTime },
    (destroy_scan anc channel st.queue).2)

/- noteq_adjust_timebase: subtract the offset from current_time and from
   the starttime of every queued note, touching nothing else. -/
def noteq_adjust_timebase (offset : ℤ) (st : NoteQ) : NoteQ :=
  { queue := st.queue.map (fun n => { n with starttime := n.starttime - offset })
    lastAdded := st.lastAdded
    currentTime := st.currentTime - offset }

/- The operations that build up a queue state: the three note-creation
   entry points (all of which funnel into note_create_reps and noteq_add)
   and noteq_adjust_timebase. -/
inductive NoteOp where
  | create (allocOk : Bool) (samp : Sample) (pitch volume : ℚ) (pan : Stereo)
      (starttime : ℤ) (channel removefunc : Option Nat) (rc : Bool) (nid : Nat)
  | createReps (allocOk : Bool) (samp : Sample) (pitch volume : ℚ) (pan : Stereo)
      (starttime : ℤ) (reps : ℤ) (channel removefunc : Option Nat) (rc : Bool) (nid : Nat)
  | createDuration (allocOk : Bool) (samp : Sample) (pitch volume : ℚ) (pan : Stereo)
      (starttime : ℤ) (duration : ℤ) (channel removefunc : Option Nat) (rc : Bool) (nid : Nat)
  | adjust (offset : ℤ)

def applyNoteOp (st : NoteQ) : NoteOp → NoteQ
  | .create ok samp pitch vol pan t ch rf rc nid =>
      (note_create ok samp pitch vol pan t ch rf rc nid st).state
  | .createReps ok samp pitch vol pan t reps ch rf rc nid =>
      (note_create_reps ok samp pitch vol pan t reps ch rf rc nid st).state
  | .createDuration ok samp pitch vol pan t dur ch rf rc nid =>
      (note_create_duration ok samp pitch vol pan t dur ch rf rc nid st).state
  | .adjust k => noteq_adjust_timebase k st

/- Run a sequence of operations from the freshly initialised state. -/
def runNoteOps (ops : List NoteOp) : NoteQ :=
  ops.foldl applyNoteOp noteq_init

/- Queue ordering relation: earlier node's starttime is at most the later
   node's. -/
def NoteLE (a b : Note) : Prop := a.starttime ≤ b.starttime

/- A no-loop test sample: 4 frames of silence at the output rate. -/
def sampNoLoop : Sample :=
  { loaded := true, error := false, numframes := 4, numchannels := 1
    hasloop := false, loopstart := 0, loopend := 0, looplen := 0
    framerate := 1, data := [0, 0, 0, 0] }

lemma mem_of_getElem?_some {α : Type} {l : List α} {i : Nat} {x : α}
    (h : l[i]? = some x) : x ∈ l := by
  obtain ⟨hi, rfl⟩ := List.getElem?_eq_some.mp h
  exact List.getElem_mem hi

lemma noteq_scan_mem (note : Note) (l : List Note) (x : Note)
    (h : x ∈ (noteq_scan note l).1) : x = note ∨ x ∈ l := by
  induction l with
  | nil => simpa [noteq_scan] using h
  | cons y ys ih =>
    by_cases hgt : note.starttime > y.starttime
    · simp only [noteq_scan, if_pos hgt, List.mem_cons] at h
      rcases h with h | h
      · exact Or.inr (List.mem_cons.mpr (Or.inl h))
      · rcases ih h with h' | h'
        · exact Or.inl h'
        · exact Or.inr (List.mem_cons_of_mem _ h')
    · simp only [noteq_scan, if_neg hgt, List.mem_cons] at h
      rcases h with h | h
      · exact Or.inl h
      · exact Or.inr (List.mem_cons.mpr h)

lemma noteq_scan_pairwise (note : Note) (l : List Note)
    (h : List.Pairwise NoteLE l) : List.Pairwise NoteLE (noteq_scan note l).1 := by
  induction l with
  | nil => simp [noteq_scan, NoteLE]
  | cons y ys ih =>
    rcases List.pairwise_cons.mp h with ⟨hy, hys⟩
    by_cases hgt : note.starttime > y.starttime
    · simp only [noteq_scan, if_pos hgt]
      refine List.pairwise_cons.mpr ⟨?_, ih hys⟩
      intro z hz
      rcases noteq_scan_mem note ys z hz with rfl | hz'
      · exact le_of_lt hgt
      · exact hy z hz'
    · simp only [noteq_scan, if_neg hgt]
      refine List.pairwise_cons.mpr ⟨?_, h⟩
      intro z hz
      rcases List.mem_cons.mp hz with rfl | hz'
      · exact not_lt.mp hgt
      · exact le_trans (not_lt.mp hgt) (hy z hz')

lemma noteq_scan_append (note : Note) (l₁ l₂ : List Note)
    (h : List.Pairwise NoteLE (l₁ ++ l₂)) (hn : ∀ a ∈ l₁, NoteLE a note) :
    List.Pairwise NoteLE (l₁ ++ (noteq_scan note l₂).1) := by
  rw [List.pairwise_append] at h ⊢
  obtain ⟨h₁, h₂, h₁₂⟩ := h
  refine ⟨h₁, noteq_scan_pairwise note l₂ h₂, ?_⟩
  intro a ha b hb
  rcases noteq_scan_mem note l₂ b hb with rfl | hb'
  · exact hn a ha
  · exact h₁₂ a ha b hb'

lemma pairwise_take_rel (l : List Note) (i : Nat) (la : Note)
    (h : List.Pairwise NoteLE l) (hla : l[i]? = some la) :
    ∀ a ∈ l.take (i + 1), NoteLE a la := by
  induction l generalizing i with
  | nil => simp at hla
  | cons y ys ih =>
    rcases List.pairwise_cons.mp h with ⟨hy, hys⟩
    cases i with
    | zero =>
      intro a ha
      simp only [List.take_succ_cons, List.take_zero, List.mem_singleton] at ha
      have : y = la := by simpa using hla
      subst this; subst ha
      exact le_refl _
    | succ j =>
      have hla' : ys[j]? = some la := by simpa using hla
      intro a ha
      simp only [List.take_succ_cons, List.mem_cons] at ha
      rcases ha with rfl | ha'
      · exact hy la (mem_of_getElem?_some hla')
      · exact ih j hys hla' a ha'

lemma noteq_hint_some (st : NoteQ) (t : ℤ) (i : Nat)
    (h : noteq_hint st t = some i) :
    ∃ la, st.queue[i]? = some la ∧ la.starttime ≤ t := by
  unfold noteq_hint at h
  cases hq : st.lastAdded with
  | none => simp [hq] at h
  | some j =>
    simp only [hq] at h
    cases hg : st.queue[j]? with
    | none => simp [hg] at h
    | some la =>
      simp only [hg] at h
      by_cases hge : t ≥ la.starttime
      · simp only [if_pos hge] at h
        obtain rfl : j = i := by simpa using h
        exact ⟨la, hg, hge⟩
      · simp [if_neg hge] at h

lemma noteq_add_pairwise (note : Note) (st : NoteQ)
    (h : List.Pairwise NoteLE st.queue) :
    List.Pairwise NoteLE (noteq_add note st).queue := by
  cases hh : noteq_hint st note.starttime with
  | none => simpa [noteq_add, hh] using noteq_scan_pairwise note st.queue h
  | some i =>
    obtain ⟨la, hla, hle⟩ := noteq_hint_some st note.starttime i hh
    simp only [noteq_add, hh]
    apply noteq_scan_append
    · rw [List.take_append_drop]; exact h
    · intro a ha
      exact le_trans (pairwise_take_rel st.queue i la h hla a ha) hle

lemma note_create_reps_pairwise (allocOk : Bool) (samp : Sample)
    (pitch volume : ℚ) (pan : Stereo) (starttime : ℤ) (reps : ℤ)
    (channel removefunc : Option Nat) (rc : Bool) (nid : Nat) (st : NoteQ)
    (h : List.Pairwise NoteLE st.queue) :
    List.Pairwise NoteLE
      (note_create_reps allocOk samp pitch volume pan starttime reps channel
        removefunc rc nid st).state.queue := by
  by_cases hok : allocOk = false
  · simpa [note_create_reps, hok] using h
  · simp only [note_create_reps, if_neg hok]
    exact noteq_add_pairwise _ st h

lemma noteq_adjust_pairwise (k : ℤ) (st : NoteQ)
    (h : List.Pairwise NoteLE st.queue) :
    List.Pairwise NoteLE (noteq_adjust_timebase k st).queue := by
  exact List.Pairwise.map _
    (fun a b hab => by simpa [NoteLE] using sub_le_sub_right hab k) h

/-- C2: after any sequence of note insertions (note_create, note_create_reps,
note_create_duration, all of which call noteq_add, possibly via the
last_added hint) and noteq_adjust_timebase calls starting from the
initialised state, walking the queue from the head yields non-decreasing
starttime: every pair of adjacent nodes a.next = b has
a.starttime <= b.starttime. -/
theorem noteq_queue_sorted (ops : List NoteOp) :
    List.Chain' (fun a b : Note => a.starttime ≤ b.starttime)
      (runNoteOps ops).queue := by
  have key : ∀ (ops : List NoteOp) (st : NoteQ), List.Pairwise NoteLE st.queue →
      List.Pairwise NoteLE (ops.foldl applyNoteOp st).queue := by
    intro ops
    induction ops with
    | nil => intro st h; exact h
    | cons op rest ih =>
      intro st h
      refine ih _ ?_
      cases op with
      | create ok samp pitch vol pan t ch rf rc nid =>
        exact note_create_reps_pairwise ok samp pitch vol pan t 1 ch rf rc nid st h
      | createReps ok samp pitch vol pan t reps ch rf rc nid =>
        exact note_create_reps_pairwise ok samp pitch vol pan t reps ch rf rc nid st h
      | createDuration ok samp pitch vol pan t dur ch rf rc nid =>
        exact note_create_reps_pairwise ok samp pitch vol pan t _ ch rf rc nid st h
      | adjust k => exact noteq_adjust_pairwise k st h
  exact (key ops noteq_init (by simp [noteq_init])).chain'

/-- C3 counterexample: insertion is not stable with respect to equal start
times. Insert note 1 at starttime 5, note 2 at starttime 0 (which moves the
last_added hint to the head), then note 3 at starttime 5: the hint applies
and the scan from last_added->next stops at note 1 (equal starttime), so
note 3 is placed before note 1, an already-queued note with the same
starttime. -/
theorem noteq_add_not_stable :
    ((runNoteOps
        [.create true sampNoLoop 1 1 ⟨1, 0, 1, 0⟩ 5 none none false 1,
         .create true sampNoLoop 1 1 ⟨1, 0, 1, 0⟩ 0 none none false 2]).queue.map
      (fun n => (n.nid, n.starttime))) = [(2, 0), (1, 5)] ∧
    ((runNoteOps
        [.create true sampNoLoop 1 1 ⟨1, 0, 1, 0⟩ 5 none none false 1,
         .create true sampNoLoop 1 1 ⟨1, 0, 1, 0⟩ 0 none none false 2,
         .create true sampNoLoop 1 1 ⟨1, 0, 1, 0⟩ 5 none none false 3]).queue.map
      (fun n => (n.nid, n.starttime))) = [(2, 0), (3, 5), (1, 5)] := by
  exact ⟨by decide, by decide⟩

lemma noteq_scan_split (note : Note) (l : List Note) :
    ∃ t₁ t₂, (noteq_scan note l).1 = t₁ ++ note :: t₂ ∧ l = t₁ ++ t₂ ∧
      (∀ x ∈ t₁, x.starttime < note.starttime) ∧
      (∀ x ∈ t₂.head?, note.starttime ≤ x.starttime) := by
  induction l with
  | nil => exact ⟨[], [], by simp [noteq_scan], by simp, by simp, by simp⟩
  | cons y ys ih =>
    by_cases hgt : note.starttime > y.starttime
    · obtain ⟨t₁, t₂, h1, h2, h3, h4⟩ := ih
      refine ⟨y :: t₁, t₂, ?_, ?_, ?_, h4⟩
      · simp [noteq_scan, if_pos hgt, h1]
      · simp [h2]
      · intro x hx
        rcases List.mem_cons.mp hx with rfl | hx'
        · exact hgt
        · exact h3 x hx'
    · refine ⟨[], y :: ys, ?_, by simp, by simp, ?_⟩
      · simp [noteq_scan, if_neg hgt]
      · intro x hx
        have hxy : y = x := by simpa using hx
        subst hxy
        exact not_lt.mp hgt

/-- C3 amended: noteq_add places the new note immediately before the first
note at or after the scan start whose starttime is greater than or equal to
the new note's; the scan start is last_added->next when the hint applies
(the new starttime is at least last_added's) and the head otherwise. Every
note strictly between the scan start and the insertion point has strictly
smaller starttime, and the note now following the inserted one (if any) has
starttime greater than or equal to it; in particular an already-queued note
of equal starttime at or after the scan start ends up after the new note. -/
theorem noteq_add_insert_position (note : Note) (st : NoteQ) :
    ∃ pre t₁ t₂,
      (noteq_add note st).queue = pre ++ t₁ ++ note :: t₂ ∧
      pre ++ (t₁ ++ t₂) = st.queue ∧
      ((noteq_hint st note.starttime = none ∧ pre = []) ∨
        ∃ i, noteq_hint st note.starttime = some i ∧ pre = st.queue.take (i + 1)) ∧
      (∀ x ∈ t₁, x.starttime < note.starttime) ∧
      (∀ x ∈ t₂.head?, note.starttime ≤ x.starttime) := by
  cases hh : noteq_hint st note.starttime with
  | none =>
    obtain ⟨t₁, t₂, h1, h2, h3, h4⟩ := noteq_scan_split note st.queue
    exact ⟨[], t₁, t₂, by simpa [noteq_add, hh] using h1, by simpa using h2.symm,
      Or.inl ⟨rfl, rfl⟩, h3, h4⟩
  | some i =>
    obtain ⟨t₁, t₂, h1, h2, h3, h4⟩ := noteq_scan_split note (st.queue.drop (i + 1))
    refine ⟨st.queue.take (i + 1), t₁, t₂, ?_, ?_, Or.inr ⟨i, rfl, rfl⟩, h3, h4⟩
    · simp [noteq_add, hh, h1]
    · rw [← h2, List.take_append_drop]

/-- C4: noteq_adjust_timebase(k) subtracts k from current_time and from the
starttime of every queued note and changes nothing else (the map rewrites
only the starttime field, and the hint is untouched); consequently the
difference starttime - current_time of every queued note is unchanged. -/
theorem noteq_adjust_timebase_spec (k : ℤ) (st : NoteQ) :
    (noteq_adjust_timebase k st).currentTime = st.currentTime - k ∧
    (noteq_adjust_timebase k st).queue =
      st.queue.map (fun n => { n with starttime := n.starttime - k }) ∧
    (noteq_adjust_timebase k st).lastAdded = st.lastAdded ∧
    ∀ i : Nat,
      ((noteq_adjust_timebase k st).queue[i]?.map
        (fun n => n.starttime - (noteq_adjust_timebase k st).currentTime)) =
      (st.queue[i]?.map (fun n => n.starttime - st.currentTime)) := by
  refine ⟨rfl, rfl, rfl, ?_⟩
  intro i
  simp only [noteq_adjust_timebase, List.getElem?_map]
  cases st.queue[i]? with
  | none => rfl
  | some n =>
    simp only [Option.map_some']
    congr 1
    ring

/-- C1 counterexample: note_destroy_by_channel does invoke the on_remove
callback of removed notes. A note on channel 0 with a callable removefunc
(identity 7) is queued; purging channel 0 removes it and the callback list
of the purge is [7], not empty. -/
theorem note_destroy_by_channel_fires_on_remove :
    ((note_destroy_by_channel (fun _ _ => false) (some 0)
        (runNoteOps
          [.create true sampNoLoop 1 1 ⟨1, 0, 1, 0⟩ 0 (some 0) (some 7) true 1])).2
      = [7]) ∧
    ((note_destroy_by_channel (fun _ _ => false) (some 0)
        (runNoteOps
          [.create true sampNoLoop 1 1 ⟨1, 0, 1, 0⟩ 0 (some 0) (some 7) true 1])).1.queue
      = []) ∧
    ([7] ≠ ([] : List Nat)) := by
  exact ⟨by decide, by decide, by decide⟩

/-- C1 amended: note_destroy_by_channel(C) removes from the queue exactly
the notes whose channel is C or whose channel reports C among its
ancestors, and it destroys each of them through note_destroy, so the
on_remove callback of every removed note that has a callable callback fires
(in queue order), exactly as on the ordinary end-of-note reap path. -/
theorem note_destroy_by_channel_spec (anc : Nat → Nat → Bool)
    (channel : Option Nat) (st : NoteQ) :
    (note_destroy_by_channel anc channel st).1.queue =
      st.queue.filter (fun n => !(channel_matches anc channel n)) ∧
    (note_destroy_by_channel anc channel st).2 =
      (st.queue.filter (channel_matches anc channel)).flatMap
        note_destroy_fired := by
  have key : ∀ l : List Note,
      (destroy_scan anc channel l).1 =
        l.filter (fun n => !(channel_matches anc channel n)) ∧
      (destroy_scan anc channel l).2 =
        (l.filter (channel_matches anc channel)).flatMap note_destroy_fired := by
    intro l
    induction l with
    | nil => simp [destroy_scan]
    | cons n rest ih =>
      by_cases hm : channel_matches anc channel n = true
      · simp [destroy_scan, hm, List.filter_cons, ih.1, ih.2]
      · simp [destroy_scan, hm, List.filter_cons, ih.1, ih.2]
  exact ⟨(key st.queue).1, (key st.queue).2⟩

/-- C10: when the malloc of the note fails, note_create_reps returns 0 at
once: the queue, the last_added hint and current_time are untouched, no
note is created, and neither the channel's nor the removefunc's reference
count is incremented (the early return precedes every Py_INCREF and the
noteq_add). -/
theorem note_create_reps_alloc_fail (samp : Sample) (pitch volume : ℚ)
    (pan : Stereo) (starttime reps : ℤ) (channel removefunc : Option Nat)
    (rc : Bool) (nid : Nat) (st : NoteQ) :
    (note_create_reps false samp pitch volume pan starttime reps channel
        removefunc rc nid st).retval = 0 ∧
    (note_create_reps false samp pitch volume pan starttime reps channel
        removefunc rc nid st).state = st ∧
    (note_create_reps false samp pitch volume pan starttime reps channel
        removefunc rc nid st).increfChannel = false ∧
    (note_create_reps false samp pitch volume pan starttime reps channel
        removefunc rc nid st).increfRemove = false ∧
    (note_create_reps false samp pitch volume pan starttime reps channel
        removefunc rc nid st).created = none :=
  ⟨rfl, rfl, rfl, rfl, rfl⟩

/- The 16-bit PCM conversion of the sink's audev_loop, big-endian branch:
   hard-clip the mixer's long sample, then emit high byte before low byte.
   On a two's-complement long, (samp >> 8) & 0xFF is floor division by 256
   followed by taking the low byte, and samp & 0xFF is the low byte. -/
def audev_clip_be (lx : ℤ) : ℤ :=
  if lx > 0x7FFF then 0x7FFF else if lx < -0x7FFF then -0x7FFF else lx

/- The little-endian branch of the same conversion: the identical clamp,
   low byte emitted before high byte. -/
def audev_clip_le (lx : ℤ) : ℤ :=
  if lx > 0x7FFF then 0x7FFF else if lx < -0x7FFF then -0x7FFF else lx

/- The byte stream audev_loop writes into the device buffer for one mixer
   buffer of long samples, in the selected endianness. -/
def audev_loop_bytes (soundFormat : Bool) (valbuffer : List ℤ) : List ℤ :=
  if soundFormat then
    valbuffer.flatMap (fun lx =>
      [((audev_clip_be lx).fdiv 256).emod 256, (audev_clip_be lx).emod 256])
  else
    valbuffer.flatMap (fun lx =>
      [(audev_clip_le lx).emod 256, ((audev_clip_le lx).fdiv 256).emod 256])

/-- C9: every 16-bit sample the sink writes is hard-clipped into
[-0x7FFF, 0x7FFF]: for every long value of the mixer's sum buffer, the
clamp applied by audev_loop before the bytes are emitted lands in that
interval, and the big- and little-endian branches apply the same clamp. -/
theorem audev_loop_clamps (v : ℤ) :
    -0x7FFF ≤ audev_clip_be v ∧ audev_clip_be v ≤ 0x7FFF ∧
    audev_clip_le v = audev_clip_be v := by
  unfold audev_clip_be audev_clip_le
  split_ifs with h1 h2 <;> omega

/- leftright_volumes: the left/right volume levels produced by a point
   source at (shiftx, shifty). Mirrors the source's control flow: compute
   dist = max(|shiftx|, |shifty|) by sign tests, normalise shiftx by dist
   when dist > 1 (the normalised shifty is computed by the source too but
   never used afterwards), split on the sign of the normalised shiftx, and
   scale by the inverse square of the distance when dist > 1. -/
def leftright_volumes (shiftx shifty : ℚ) : ℚ × ℚ :=
  let dist0 := if shiftx ≥ 0 then shiftx else -shiftx
  let dist := if shifty ≥ 0 then (if shifty > dist0 then shifty else dist0)
              else (if -shifty > dist0 then -shifty else dist0)
  let sx := if dist > 1 then shiftx / dist else shiftx
  let vols := if sx < 0 then ((1 : ℚ), 1 + sx) else (1 - sx, 1)
  if dist > 1 then (vols.1 / (dist * dist), vols.2 / (dist * dist)) else vols

/- The specification's reference definition of the left/right split, stated
   with max and absolute value exactly as the spec words it. -/
def leftright_volumes_ref (sx sy : ℚ) : ℚ × ℚ :=
  let d := max |sx| |sy|
  let sxn := if d > 1 then sx / d else sx
  let vols := if sxn < 0 then ((1 : ℚ), 1 + sxn) else (1 - sxn, 1)
  if d > 1 then (vols.1 / (d * d), vols.2 / (d * d)) else vols

/-- C6: leftright_volumes agrees with the spec's reference definition on
every pair of inputs, and the pan-symmetry consequences hold: a centred
mono note (pan shift 0) gets equal left and right volumes, shift -1 gives
volume 0 on the right, shift +1 gives volume 0 on the left. -/
theorem leftright_volumes_correct :
    (∀ sx sy : ℚ, leftright_volumes sx sy = leftright_volumes_ref sx sy) ∧
    (leftright_volumes 0 0).1 = (leftright_volumes 0 0).2 ∧
    (leftright_volumes (-1) 0).2 = 0 ∧
    (leftright_volumes 1 0).1 = 0 := by
  have key : ∀ sxv syv : ℚ,
      (if syv ≥ 0 then
        (if syv > (if sxv ≥ 0 then sxv else -sxv) then syv
         else (if sxv ≥ 0 then sxv else -sxv))
       else
        (if -syv > (if sxv ≥ 0 then sxv else -sxv) then -syv
         else (if sxv ≥ 0 then sxv else -sxv))) = max |sxv| |syv| := by
    intro sxv syv
    have habs : (if sxv ≥ 0 then sxv else -sxv) = |sxv| := by
      by_cases hx : sxv ≥ 0
      · rw [if_pos hx, abs_of_nonneg hx]
      · rw [if_neg hx, abs_of_neg (not_le.mp hx)]
    rw [habs]
    by_cases hy : syv ≥ 0
    · rw [if_pos hy, abs_of_nonneg hy]
      by_cases hgt : syv > |sxv|
      · rw [if_pos hgt, max_eq_right (le_of_lt hgt)]
      · rw [if_neg hgt, max_eq_left (not_lt.mp hgt)]
    · rw [if_neg hy, abs_of_neg (not_le.mp hy)]
      by_cases hgt : -syv > |sxv|
      · rw [if_pos hgt, max_eq_right (le_of_lt hgt)]
      · rw [if_neg hgt, max_eq_left (not_lt.mp hgt)]
  refine ⟨?_, ?_, ?_, ?_⟩
  · intro sx sy
    simp only [leftright_volumes, leftright_volumes_ref]
    rw [key]
  · norm_num [leftright_volumes]
  · norm_num [leftright_volumes]
  · norm_num [leftright_volumes]

/- An 8-frame looping test sample: loop section frames 2..6 (length 4),
   natural rate. -/
def sampLoop8 : Sample :=
  { loaded := true, error := false, numframes := 8, numchannels := 1
    hasloop := true, loopstart := 2, loopend := 6, looplen := 4
    framerate := 1, data := [0, 0, 0, 0, 0, 0, 0, 0] }

lemma tdiv_add_pred_eq_ceil (x len : ℤ) (hlen : 0 < len) :
    max 1 ((x + (len - 1)).tdiv len) = max 1 ⌈(x : ℚ) / (len : ℚ)⌉ := by
  have hl0 : (0 : ℚ) < (len : ℚ) := by exact_mod_cast hlen
  rcases le_or_lt x 0 with hx | hx
  · have h1 : ⌈(x : ℚ) / (len : ℚ)⌉ ≤ 1 := by
      rw [Int.ceil_le]
      rw [div_le_iff₀ hl0]
      have hxQ : (x : ℚ) ≤ 0 := by exact_mod_cast hx
      push_cast
      nlinarith [hxQ]
    have h2 : (x + (len - 1)).tdiv len ≤ 1 := by
      rcases le_or_lt 0 (x + (len - 1)) with hnum | hnum
      · have hlt : x + (len - 1) < len := by omega
        rw [Int.tdiv_eq_ediv hnum (le_of_lt hlen), Int.ediv_eq_zero_of_lt hnum hlt]
        omega
      · have hpos : 0 ≤ -(x + (len - 1)) := by omega
        have hnn := Int.tdiv_nonneg hpos (le_of_lt hlen)
        rw [Int.neg_tdiv] at hnn
        omega
    rw [max_eq_left h2, max_eq_left h1]
  · have hnum : 0 ≤ x + (len - 1) := by omega
    rw [Int.tdiv_eq_ediv hnum (le_of_lt hlen)]
    have hkey : ⌈(x : ℚ) / (len : ℚ)⌉ = (x + (len - 1)) / len := by
      rw [Int.ceil_eq_iff]
      have hdm := Int.ediv_add_emod (x + (len - 1)) len
      have hmod0 : 0 ≤ (x + (len - 1)) % len := Int.emod_nonneg _ (ne_of_gt hlen)
      have hmodlt : (x + (len - 1)) % len < len := Int.emod_lt_of_pos _ hlen
      constructor
      · rw [lt_div_iff₀ hl0]
        have h1 : (((x + (len - 1)) / len) - 1) * len < x := by
          have hexp : (((x + (len - 1)) / len) - 1) * len
              = len * ((x + (len - 1)) / len) - len := by ring
          rw [hexp]
          generalize hB : len * ((x + (len - 1)) / len) = B at hdm ⊢
          generalize hR : (x + (len - 1)) % len = r at hdm hmod0
          omega
        exact_mod_cast h1
      · rw [div_le_iff₀ hl0]
        have h2 : x ≤ ((x + (len - 1)) / len) * len := by
          have hexp : ((x + (len - 1)) / len) * len
              = len * ((x + (len - 1)) / len) := by ring
          rw [hexp]
          generalize hB : len * ((x + (len - 1)) / len) = B at hdm ⊢
          generalize hR : (x + (len - 1)) % len = r at hdm hmodlt
          omega
        exact_mod_cast h2
    rw [hkey]

/-- C7 counterexample: the repetition count is not the real-valued ceiling
the claim states. With the 8-frame loop sample (margins 4, loop length 4),
framerate*pitch = 1/2 and duration 17, the real-valued formula gives
ceil((8.5 - 4)/4) = 2, but the source first truncates 17 * (1/2) to 8
source frames and computes (8 - 4 + 3) tdiv 4 = 1, so the created note has
repetitions 1. -/
theorem note_create_duration_reps_cex :
    ((note_create_duration true sampLoop8 (1/2) 1 ⟨1, 0, 1, 0⟩ 0 17 none none
        false 1 noteq_init).created.map Note.repetitions = some 1) ∧
    max 1 ⌈(((17 : ℚ) * ((1 : ℚ) * (1/2)) - ((8 : ℚ) - 4)) / (4 : ℚ))⌉ = 2 := by
  constructor
  · have h8 : ctrunc (((17 : ℤ) : ℚ) * ((1 : ℚ) * (1 / 2))) = 8 := by
      norm_num [ctrunc]
    simp only [note_create_duration, note_create_reps, sampLoop8, h8]
    decide
  · have hc : ⌈(((17 : ℚ) * ((1 : ℚ) * (1/2)) - ((8 : ℚ) - 4)) / (4 : ℚ))⌉ = 2 := by
      rw [Int.ceil_eq_iff]; norm_num
    rw [hc]
    decide

/-- C7 amended: for a sample with a loop, note_create_duration first
truncates duration * framerate * pitch to a whole number of source frames
(the C double-to-long cast), and the repetitions stored on the created note
are then the ceiling of (truncated_source_frames - margins) / loop_len,
coerced to at least 1 (note_create_reps turns every value <= 1 into 1
before the note is queued); for a sample without a loop the note gets one
pass (repetitions = 1). -/
theorem note_create_duration_reps_spec (samp : Sample) (pitch volume : ℚ)
    (pan : Stereo) (starttime duration : ℤ) (channel removefunc : Option Nat)
    (rc : Bool) (nid : Nat) (st : NoteQ)
    (hl : samp.hasloop = true → 0 < samp.looplen) :
    (note_create_duration true samp pitch volume pan starttime duration channel
        removefunc rc nid st).created.map Note.repetitions =
      some (if samp.hasloop = true then
          max 1 ⌈((ctrunc ((duration : ℚ) * (samp.framerate * pitch)) -
              (samp.numframes - samp.looplen) : ℤ) : ℚ) / ((samp.looplen : ℤ) : ℚ)⌉
        else 1) := by
  by_cases hloop : samp.hasloop = true
  · have hlen := hl hloop
    simp only [note_create_duration, note_create_reps, hloop,
      Bool.true_eq_false, false_or, if_false, Option.map_some']
    rw [← tdiv_add_pred_eq_ceil _ _ hlen]
    rcases le_or_lt
        ((ctrunc ((duration : ℚ) * (samp.framerate * pitch)) -
          (samp.numframes - samp.looplen) + (samp.looplen - 1)).tdiv samp.looplen) 1
      with hle | hlt
    · rw [if_pos hle, max_eq_left hle]; simp
    · rw [if_neg (not_le.mpr hlt), max_eq_right (le_of_lt hlt)]; simp
  · have hfalse : samp.hasloop = false := by
      revert hloop; cases samp.hasloop <;> simp
    simp [note_create_duration, note_create_reps, hfalse]

/-- Witness for the amended C7 theorem at the 8-frame loop sample with
framerate*pitch = 1/2 and duration 17. -/
theorem note_create_duration_reps_spec_witness :
    ((sampLoop8.hasloop = true → (0 : ℤ) < sampLoop8.looplen)) ∧
    (note_create_duration true sampLoop8 (1/2) 1 ⟨1, 0, 1, 0⟩ 0 17 none none
        false 1 noteq_init).created.map Note.repetitions =
      some (if sampLoop8.hasloop = true then
          max 1 ⌈((ctrunc ((17 : ℚ) * (sampLoop8.framerate * (1/2))) -
              (sampLoop8.numframes - sampLoop8.looplen) : ℤ) : ℚ) /
            ((sampLoop8.looplen : ℤ) : ℚ)⌉
        else 1) :=
  ⟨fun _ => by decide,
    note_create_duration_reps_spec sampLoop8 (1/2) 1 ⟨1, 0, 1, 0⟩ 0 17 none
      none false 1 noteq_init (fun _ => by decide)⟩

/- The play cursor of a note inside the inner loop of noteq_generate:
   source frame position, 16-bit fixed-point fraction, repetitions left. -/
structure PlayState where
  framepos : ℤ
  framefrac : ℤ
  repsleft : ℤ
deriving DecidableEq, Repr

/- The loop-wrap while loop of noteq_generate:
   while (repsleft > 0 && framepos >= loopend) framepos -= looplen,
   repsleft--. Each pass decrements repsleft and requires it positive, so
   fuel = repsleft.toNat makes the recursion equal the C loop. -/
def loop_wrap (loopend looplen : ℤ) : Nat → ℤ → ℤ → ℤ × ℤ
  | 0, framepos, repsleft => (framepos, repsleft)
  | fuel + 1, framepos, repsleft =>
    if 0 < repsleft ∧ loopend ≤ framepos then
      loop_wrap loopend looplen fuel (framepos - looplen) (repsleft - 1)
    else (framepos, repsleft)

/- One output frame of the cursor advance in noteq_generate:
   framefrac += lpitch; framepos += framefrac >> 16; framefrac &= 0xFFFF;
   then the loop-wrap while loop. framefrac stays in [0, 0xFFFF] and lpitch
   is clamped positive by the source, so the shift and mask are division
   and remainder by 0x10000. -/
def generate_step (samp : Sample) (lpitch : ℤ) (s : PlayState) : PlayState :=
  { framepos := (loop_wrap samp.loopend samp.looplen s.repsleft.toNat
      (s.framepos + (s.framefrac + lpitch) / 65536) s.repsleft).1
    framefrac := (s.framefrac + lpitch) % 65536
    repsleft := (loop_wrap samp.loopend samp.looplen s.repsleft.toNat
      (s.framepos + (s.framefrac + lpitch) / 65536) s.repsleft).2 }

/- The reap test of noteq_generate, checked after every frame:
   framepos + 1 >= numframes && repsleft == 0 sets willdelete, and the note
   is destroyed after its contribution to the current buffer. -/
def generate_done (samp : Sample) (s : PlayState) : Bool :=
  decide (samp.numframes ≤ s.framepos + 1 ∧ s.repsleft = 0)

/- n frames of cursor advance. The inner loop runs this once per output
   frame; the cursor is persisted in the note between noteq_generate calls,
   so the concatenation over successive calls is exactly this iteration. -/
def generate_run (samp : Sample) (lpitch : ℤ) : Nat → PlayState → PlayState
  | 0, s => s
  | n + 1, s => generate_run samp lpitch n (generate_step samp lpitch s)

/- The note plays exactly n frames and is then reaped: the reap flag first
   becomes true after the n-th frame. -/
def reapsAfter (samp : Sample) (lpitch : ℤ) (s : PlayState) (n : Nat) : Prop :=
  generate_done samp (generate_run samp lpitch n s) = true ∧
  ∀ m < n, generate_done samp (generate_run samp lpitch m s) = false

/-- C5 counterexample: the 8-frame sample with loop 2..6 (loop length 4)
and reps = 3, at one source frame per output frame (lpitch = 0x10000,
initial cursor (0, 0, repsleft 2)), is reaped after 15 frames, not the 16
= num_frames + (k-1)*loop_len the claim states: the final source frame
never starts an output frame, it is only the interpolation endpoint. -/
theorem generate_loop_reaps_cex :
    reapsAfter sampLoop8 65536 ⟨0, 0, 2⟩ 15 ∧
    ¬ reapsAfter sampLoop8 65536 ⟨0, 0, 2⟩ 16 := by
  constructor
  · exact ⟨by decide, by decide⟩
  · rintro ⟨-, h⟩
    have h15 := h 15 (by omega)
    exact absurd h15 (by decide)

/- The number of output frames the cursor still has to produce before the
   reap test fires: frames to the end of the current pass plus one loop
   section per remaining repetition. -/
def playMeasure (samp : Sample) (s : PlayState) : ℤ :=
  (samp.numframes - 1 - s.framepos) + s.repsleft * samp.looplen

/- The states the cursor of an active unit-pitch note ranges over: zero
   fraction, position inside the sample, repetitions nonnegative, and the
   position still before loopend while repetitions remain. -/
def PlayInv (samp : Sample) (s : PlayState) : Prop :=
  s.framefrac = 0 ∧ 0 ≤ s.framepos ∧ s.framepos < samp.numframes ∧
  0 ≤ s.repsleft ∧ (0 < s.repsleft → s.framepos < samp.loopend)

lemma loop_wrap_stop (loopend looplen : ℤ) (fuel : Nat) (p r : ℤ)
    (h : ¬(0 < r ∧ loopend ≤ p)) : loop_wrap loopend looplen fuel p r = (p, r) := by
  cases fuel with
  | zero => rfl
  | succ f => simp [loop_wrap, h]

lemma loop_wrap_once (loopend looplen : ℤ) (p r : ℤ)
    (hr : 0 < r) (hp : loopend ≤ p) (hstop : ¬(loopend ≤ p - looplen)) :
    loop_wrap loopend looplen r.toNat p r = (p - looplen, r - 1) := by
  obtain ⟨f, hf⟩ : ∃ f, r.toNat = f + 1 := ⟨r.toNat - 1, by omega⟩
  rw [hf]
  simp only [loop_wrap, if_pos (And.intro hr hp)]
  exact loop_wrap_stop _ _ _ _ _ (fun hc => hstop hc.2)

lemma generate_step_spec (samp : Sample) (s : PlayState)
    (hls : 0 ≤ samp.loopstart) (hlt : samp.loopstart < samp.loopend)
    (hle : samp.loopend ≤ samp.numframes)
    (hlen : samp.looplen = samp.loopend - samp.loopstart)
    (hinv : PlayInv samp s) (hnd : generate_done samp s = false) :
    PlayInv samp (generate_step samp 65536 s) ∧
    playMeasure samp (generate_step samp 65536 s) + 1 = playMeasure samp s := by
  obtain ⟨hf, hp0, hpn, hr0, hrle⟩ := hinv
  have hnd' : ¬(samp.numframes ≤ s.framepos + 1 ∧ s.repsleft = 0) := by
    simpa [generate_done] using hnd
  have hdiv : (s.framefrac + 65536) / 65536 = 1 := by rw [hf]; decide
  have hmod : (s.framefrac + 65536) % 65536 = 0 := by rw [hf]; decide
  rcases eq_or_lt_of_le hr0 with hr | hr
  · have hwrap : loop_wrap samp.loopend samp.looplen s.repsleft.toNat
        (s.framepos + 1) s.repsleft = (s.framepos + 1, s.repsleft) :=
      loop_wrap_stop _ _ _ _ _ (by omega)
    have hA : generate_step samp 65536 s = ⟨s.framepos + 1, 0, s.repsleft⟩ := by
      simp only [generate_step, hdiv, hmod, hwrap]
    rw [hA]
    refine ⟨⟨rfl, by dsimp only; omega, by dsimp only; omega, hr0,
      fun h => by dsimp only at h ⊢; omega⟩, ?_⟩
    unfold playMeasure
    dsimp only
    ring
  · have hple : s.framepos < samp.loopend := hrle hr
    by_cases hp1 : s.framepos + 1 < samp.loopend
    · have hwrap : loop_wrap samp.loopend samp.looplen s.repsleft.toNat
          (s.framepos + 1) s.repsleft = (s.framepos + 1, s.repsleft) :=
        loop_wrap_stop _ _ _ _ _ (by omega)
      have hB : generate_step samp 65536 s = ⟨s.framepos + 1, 0, s.repsleft⟩ := by
        simp only [generate_step, hdiv, hmod, hwrap]
      rw [hB]
      refine ⟨⟨rfl, by dsimp only; omega, by dsimp only; omega, hr0,
        fun _ => hp1⟩, ?_⟩
      unfold playMeasure
      dsimp only
      ring
    · have hpe : s.framepos + 1 = samp.loopend := by omega
      have hwrap : loop_wrap samp.loopend samp.looplen s.repsleft.toNat
          (s.framepos + 1) s.repsleft
          = (s.framepos + 1 - samp.looplen, s.repsleft - 1) :=
        loop_wrap_once _ _ _ _ hr (by omega) (by omega)
      have hC : generate_step samp 65536 s
          = ⟨s.framepos + 1 - samp.looplen, 0, s.repsleft - 1⟩ := by
        simp only [generate_step, hdiv, hmod, hwrap]
      rw [hC]
      refine ⟨⟨rfl, by dsimp only; omega, by dsimp only; omega,
        by dsimp only; omega, fun _ => by dsimp only; omega⟩, ?_⟩
      unfold playMeasure
      dsimp only
      ring

lemma generate_done_iff (samp : Sample) (s : PlayState)
    (hlen0 : 0 < samp.looplen)
    (hpn : s.framepos < samp.numframes) (hr0 : 0 ≤ s.repsleft) :
    generate_done samp s = true ↔ playMeasure samp s = 0 := by
  have hmul : 0 ≤ s.repsleft * samp.looplen := mul_nonneg hr0 (le_of_lt hlen0)
  simp only [generate_done, decide_eq_true_eq, playMeasure]
  constructor
  · rintro ⟨h1, h2⟩
    rw [h2, zero_mul]
    omega
  · intro h
    have hA0 : s.repsleft * samp.looplen = 0 ∧ samp.numframes ≤ s.framepos + 1 := by
      generalize hA : s.repsleft * samp.looplen = A at h hmul
      omega
    rcases mul_eq_zero.mp hA0.1 with h0 | h0
    · exact ⟨hA0.2, h0⟩
    · exact absurd h0 (by omega)

lemma generate_run_reaps (samp : Sample)
    (hls : 0 ≤ samp.loopstart) (hlt : samp.loopstart < samp.loopend)
    (hle : samp.loopend ≤ samp.numframes)
    (hlen : samp.looplen = samp.loopend - samp.loopstart) :
    ∀ (n : Nat) (s : PlayState), PlayInv samp s →
      playMeasure samp s = (n : ℤ) → 0 < n →
      reapsAfter samp 65536 s n := by
  have hlen0 : 0 < samp.looplen := by omega
  intro n
  induction n with
  | zero => intro s _ _ h0; exact absurd h0 (lt_irrefl 0)
  | succ m ih =>
    intro s hinv hmeas hpos
    have hnd : generate_done samp s = false := by
      rcases Bool.eq_false_or_eq_true (generate_done samp s) with h | h
      · exfalso
        have h0 := (generate_done_iff samp s hlen0 hinv.2.2.1 hinv.2.2.2.1).mp h
        omega
      · exact h
    obtain ⟨hinv', hmeas'⟩ := generate_step_spec samp s hls hlt hle hlen hinv hnd
    cases Nat.eq_zero_or_pos m with
    | inl hm0 =>
      subst hm0
      constructor
      · have hm : playMeasure samp (generate_step samp 65536 s) = 0 := by omega
        have hdone :=
          (generate_done_iff samp _ hlen0 hinv'.2.2.1 hinv'.2.2.2.1).mpr hm
        simpa [generate_run] using hdone
      · intro j hj
        have hj0 : j = 0 := by omega
        subst hj0
        simpa [generate_run] using hnd
    | inr hmpos =>
      have hmeas2 : playMeasure samp (generate_step samp 65536 s) = (m : ℤ) := by
        push_cast at hmeas ⊢
        omega
      have hrec := ih (generate_step samp 65536 s) hinv' hmeas2 hmpos
      constructor
      · exact hrec.1
      · intro j hj
        cases j with
        | zero => simpa [generate_run] using hnd
        | succ i => exact hrec.2 i (by omega)

/-- C5 amended: at one source frame per output frame (lpitch = 0x10000), a
looping note created with reps = k (cursor starting at (0, 0) with
repsleft = k - 1) plays exactly (num_frames - 1) + (k - 1) * loop_len
output frames across successive noteq_generate calls and is then reaped:
the reap test framepos + 1 >= num_frames fires one frame earlier than the
claim's num_frames + (k - 1) * loop_len, because the final source frame
only ever serves as the interpolation endpoint and never starts a frame. -/
theorem generate_loop_reap_count (samp : Sample) (k : ℤ)
    (hloop : samp.hasloop = true) (hls : 0 ≤ samp.loopstart)
    (hlt : samp.loopstart < samp.loopend) (hle : samp.loopend ≤ samp.numframes)
    (hlen : samp.looplen = samp.loopend - samp.loopstart)
    (hnf : 2 ≤ samp.numframes) (hk : 1 ≤ k) :
    reapsAfter samp 65536 ⟨0, 0, k - 1⟩
      ((samp.numframes - 1 + (k - 1) * samp.looplen).toNat) := by
  have hlen0 : 0 < samp.looplen := by omega
  have hmul : 0 ≤ (k - 1) * samp.looplen :=
    mul_nonneg (by omega) (le_of_lt hlen0)
  apply generate_run_reaps samp hls hlt hle hlen
  · exact ⟨rfl, le_refl 0, by dsimp only; omega, by dsimp only; omega,
      fun _ => by dsimp only; omega⟩
  · have hnn : 0 ≤ samp.numframes - 1 + (k - 1) * samp.looplen := by
      generalize hA : (k - 1) * samp.looplen = A at hmul
      omega
    rw [Int.toNat_of_nonneg hnn]
    unfold playMeasure
    dsimp only
    ring
  · have h1 : 1 ≤ samp.numframes - 1 + (k - 1) * samp.looplen := by
      generalize hA : (k - 1) * samp.looplen = A at hmul
      omega
    omega

/-- Witness for the amended C5 theorem: the 8-frame loop sample with
reps = 3 plays (8 - 1) + 2 * 4 = 15 frames and is then reaped. -/
theorem generate_loop_reap_count_witness :
    (sampLoop8.hasloop = true ∧ (0 : ℤ) ≤ sampLoop8.loopstart ∧
     sampLoop8.loopstart < sampLoop8.loopend ∧
     sampLoop8.loopend ≤ sampLoop8.numframes ∧
     sampLoop8.looplen = sampLoop8.loopend - sampLoop8.loopstart ∧
     (2 : ℤ) ≤ sampLoop8.numframes ∧ (1 : ℤ) ≤ 3) ∧
    reapsAfter sampLoop8 65536 ⟨0, 0, 3 - 1⟩
      ((sampLoop8.numframes - 1 + ((3 : ℤ) - 1) * sampLoop8.looplen).toNat) :=
  ⟨⟨by decide, by decide, by decide, by decide, by decide, by decide, by decide⟩,
    generate_loop_reap_count sampLoop8 3 (by decide) (by decide) (by decide)
      (by decide) (by decide) (by decide) (by decide)⟩

/- bval = (*bdat++) & 0xFF: fetch one byte of the raw sound data. The data
   pointer is modelled as a function from byte index to the stored char
   value; masking with 0xFF is the Euclidean remainder by 256 on a
   two's-complement machine. -/
def load_byte (data : Nat → ℤ) (pos : Nat) : ℤ := (data pos) % 256

/- bval ^= 0x80: recentre an unsigned byte value in [0, 256). -/
def xor80 (b : ℤ) : ℤ := if b < 128 then b + 128 else b - 128

/- if (bval & 0x80) val = (-0x80 + (bval & 0x7F)) * 0x100; else
   val = bval * 0x100: sign-extend the high byte to a 16-bit value. For a
   byte value in [0, 256), bval & 0x7F is bval - 128 when the sign bit is
   set. -/
def sign_extend_16 (b : ℤ) : ℤ :=
  if 128 ≤ b then (-128 + (b - 128)) * 256 else b * 256

/- One 8-bit sample at byte index pos, converted to signed 16-bit. -/
def sample8_val (issigned : Bool) (data : Nat → ℤ) (pos : Nat) : ℤ :=
  sign_extend_16
    (if issigned then load_byte data pos else xor80 (load_byte data pos))

/- One 16-bit sample with its high byte at hpos and low byte at lpos.
   val |= bval2: the sign-extended high byte has zero low bits, so the
   bitwise or is addition. -/
def sample16_val (issigned : Bool) (data : Nat → ℤ) (hpos lpos : Nat) : ℤ :=
  (sign_extend_16
    (if issigned then load_byte data hpos else xor80 (load_byte data hpos)))
  + load_byte data lpos

/- The conversion loop of sample_load: one pass per frame, consuming bytes
   left to right exactly as the source's bdat pointer advances (input
   channels beyond the first two are skipped). -/
def load_frames (samplebits numchannels : ℤ) (issigned isbigend : Bool)
    (data : Nat → ℤ) : Nat → Nat → List ℤ
  | 0, _ => []
  | fx + 1, pos =>
    if samplebits = 8 then
      if numchannels = 1 then
        sample8_val issigned data pos ::
          load_frames samplebits numchannels issigned isbigend data fx (pos + 1)
      else
        sample8_val issigned data pos :: sample8_val issigned data (pos + 1) ::
          load_frames samplebits numchannels issigned isbigend data fx
            (pos + 2 + (if 2 < numchannels then (numchannels - 2).toNat else 0))
    else
      if numchannels = 1 then
        (if isbigend then sample16_val issigned data pos (pos + 1)
         else sample16_val issigned data (pos + 1) pos) ::
          load_frames samplebits numchannels issigned isbigend data fx (pos + 2)
      else
        (if isbigend then sample16_val issigned data pos (pos + 1)
         else sample16_val issigned data (pos + 1) pos) ::
        (if isbigend then sample16_val issigned data (pos + 2) (pos + 3)
         else sample16_val issigned data (pos + 3) (pos + 2)) ::
          load_frames samplebits numchannels issigned isbigend data fx
            (pos + 4 + (if 2 < numchannels then (2 * (numchannels - 2)).toNat else 0))

/- sample_load: validate the sample-bit width, allocate the value buffer
   (allocOk models the malloc), convert the raw data, check the produced
   value count, and fill in the sample fields. The loop points are taken
   as given when 0 <= loopstart < loopend and zeroed otherwise; no
   comparison against numframes is made. framerate is the ratio of the
   source rate to audev_get_soundrate(). Returns the C result flag and the
   sample state afterwards. -/
def sample_load (samp : Sample) (allocOk : Bool) (framerate : ℤ)
    (numframes : ℤ) (data : Nat → ℤ) (loopstart loopend : ℤ)
    (numchannels samplebits : ℤ) (issigned isbigend : Bool)
    (soundrate : ℤ) : Bool × Sample :=
  if samp.error = true then (false, samp)
  else if samp.loaded = true then (true, samp)
  else if samplebits ≠ 8 ∧ samplebits ≠ 16 then (false, { samp with error := true })
  else
    let numchanout : ℤ := if numchannels = 1 then 1 else 2
    if allocOk = false then (false, { samp with error := true })
    else
      let vals := load_frames samplebits numchannels issigned isbigend data
        numframes.toNat 0
      if vals.length ≠ (numchanout * numframes).toNat then
        (false, { samp with error := true })
      else
        let loopFields : Bool × ℤ × ℤ :=
          if loopstart ≥ loopend ∨ loopstart < 0 ∨ loopend < 0 then (false, 0, 0)
          else (true, loopstart, loopend)
        (true,
          { loaded := true
            error := samp.error
            numframes := numframes
            numchannels := numchanout
            hasloop := loopFields.1
            loopstart := loopFields.2.1
            loopend := loopFields.2.2
            looplen := loopFields.2.2 - loopFields.2.1
            framerate := (framerate : ℚ) / (soundrate : ℚ)
            data := vals })

/- A freshly allocated sample, as sample_create returns it (the fields the
   source leaves uninitialised are modelled as zero). -/
def sample_create : Sample :=
  { loaded := false, error := false, numframes := 0, numchannels := 0
    hasloop := false, loopstart := 0, loopend := 0, looplen := 0
    framerate := 1, data := [] }

/-- C8 counterexample: sample_load performs no range check of the loop
points against the frame count. Loading 4 frames with loopstart = 0 and
loopend = 100 succeeds and yields has_loop with loop_end = 100 > 4 =
num_frames, violating the claimed invariant loop_end <= num_frames. -/
theorem sample_load_loop_range_cex :
    ((sample_load sample_create true 44100 4 (fun _ => 0) 0 100 1 16 true
        false 44100).1 = true) ∧
    ((sample_load sample_create true 44100 4 (fun _ => 0) 0 100 1 16 true
        false 44100).2.hasloop = true) ∧
    ((sample_load sample_create true 44100 4 (fun _ => 0) 0 100 1 16 true
        false 44100).2.loopend = 100) ∧
    ((sample_load sample_create true 44100 4 (fun _ => 0) 0 100 1 16 true
        false 44100).2.numframes = 4) ∧
    ¬((sample_load sample_create true 44100 4 (fun _ => 0) 0 100 1 16 true
        false 44100).2.loopend ≤
      (sample_load sample_create true 44100 4 (fun _ => 0) 0 100 1 16 true
        false 44100).2.numframes) := by
  refine ⟨by decide, by decide, by decide, by decide, by decide⟩

/-- C8 amended: after a successful sample_load of an unloaded sample, the
stored loop fields satisfy has_loop iff 0 <= loop_start < loop_end and
loop_len = loop_end - loop_start, and num_frames is the passed frame
count; loop_end <= num_frames additionally holds whenever the caller's
loop_end is at most the frame count, but sample_load itself performs no
such range check (see the counterexample). -/
theorem sample_load_loop_invariants (samp : Sample) (allocOk : Bool)
    (framerate numframes : ℤ) (data : Nat → ℤ) (loopstart loopend : ℤ)
    (numchannels samplebits : ℤ) (issigned isbigend : Bool) (soundrate : ℤ)
    (hfresh : samp.loaded = false)
    (hok : (sample_load samp allocOk framerate numframes data loopstart loopend
        numchannels samplebits issigned isbigend soundrate).1 = true) :
    ((sample_load samp allocOk framerate numframes data loopstart loopend
        numchannels samplebits issigned isbigend soundrate).2.hasloop = true ↔
      0 ≤ (sample_load samp allocOk framerate numframes data loopstart loopend
          numchannels samplebits issigned isbigend soundrate).2.loopstart ∧
        (sample_load samp allocOk framerate numframes data loopstart loopend
          numchannels samplebits issigned isbigend soundrate).2.loopstart <
        (sample_load samp allocOk framerate numframes data loopstart loopend
          numchannels samplebits issigned isbigend soundrate).2.loopend) ∧
    (sample_load samp allocOk framerate numframes data loopstart loopend
        numchannels samplebits issigned isbigend soundrate).2.looplen =
      (sample_load samp allocOk framerate numframes data loopstart loopend
        numchannels samplebits issigned isbigend soundrate).2.loopend -
      (sample_load samp allocOk framerate numframes data loopstart loopend
        numchannels samplebits issigned isbigend soundrate).2.loopstart ∧
    (sample_load samp allocOk framerate numframes data loopstart loopend
        numchannels samplebits issigned isbigend soundrate).2.numframes =
      numframes ∧
    (loopend ≤ numframes →
      (sample_load samp allocOk framerate numframes data loopstart loopend
          numchannels samplebits issigned isbigend soundrate).2.hasloop = true →
      (sample_load samp allocOk framerate numframes data loopstart loopend
          numchannels samplebits issigned isbigend soundrate).2.loopend ≤
      (sample_load samp allocOk framerate numframes data loopstart loopend
          numchannels samplebits issigned isbigend soundrate).2.numframes) := by
  simp only [sample_load] at hok ⊢
  split_ifs at hok ⊢
  all_goals try simp at hok
  all_goals try (exfalso; simp_all; done)
  all_goals dsimp only
  all_goals try (refine ⟨by simp only [true_iff]; omega, rfl, rfl,
    fun hle _ => hle⟩)
  all_goals simp

/-- Witness for the amended C8 theorem: loading 8 frames with the valid
loop 2..6 succeeds and the stored fields satisfy all the invariants. -/
theorem sample_load_loop_invariants_witness :
    sample_create.loaded = false ∧
    ((sample_load sample_create true 44100 8 (fun _ => 0) 2 6 1 16 true false
        44100).1 = true) ∧
    (((sample_load sample_create true 44100 8 (fun _ => 0) 2 6 1 16 true false
        44100).2.hasloop = true ↔
      0 ≤ (sample_load sample_create true 44100 8 (fun _ => 0) 2 6 1 16 true
          false 44100).2.loopstart ∧
        (sample_load sample_create true 44100 8 (fun _ => 0) 2 6 1 16 true
          false 44100).2.loopstart <
        (sample_load sample_create true 44100 8 (fun _ => 0) 2 6 1 16 true
          false 44100).2.loopend) ∧
    (sample_load sample_create true 44100 8 (fun _ => 0) 2 6 1 16 true false
        44100).2.looplen =
      (sample_load sample_create true 44100 8 (fun _ => 0) 2 6 1 16 true false
        44100).2.loopend -
      (sample_load sample_create true 44100 8 (fun _ => 0) 2 6 1 16 true false
        44100).2.loopstart ∧
    (sample_load sample_create true 44100 8 (fun _ => 0) 2 6 1 16 true false
        44100).2.numframes = 8 ∧
    ((6 : ℤ) ≤ 8 →
      (sample_load sample_create true 44100 8 (fun _ => 0) 2 6 1 16 true false
          44100).2.hasloop = true →
      (sample_load sample_create true 44100 8 (fun _ => 0) 2 6 1 16 true false
          44100).2.loopend ≤
      (sample_load sample_create true 44100 8 (fun _ => 0) 2 6 1 16 true false
          44100).2.numframes)) :=
  ⟨by decide, by decide,
    sample_load_loop_invariants sample_create true 44100 8 (fun _ => 0) 2 6 1
      16 true false 44100 (by decide) (by decide)⟩
